import Mathlib

/-!
# Verification of `server.py` (falai-paw development server)

Shallow embedding of the single-file HTTP development server:

* a model of Python's `json.dumps` restricted to lists of strings
  (the only shape the server serializes), together with a parser for
  JSON arrays of strings and a round-trip theorem;
* a filesystem tree model and the semantics of
  `Path('endpoints').glob('**/openapi.json')`;
* the request handler `FalAIHandler.do_GET` / `end_headers` as pure
  functions over an abstract world (filesystem + static-file delegate);
* the `__main__` block (port, banner, interrupt handling).

Machine integers do not occur in the source; strings and lists model the
Python values directly.  Bodies are modelled as strings (the `.encode()`
to UTF-8 bytes on the wire is not modelled; it is injective, so nothing
in the claims depends on it).
-/

/-! ## Python `json.dumps` for lists of strings

`json.dumps(endpoints)` with default arguments: items joined by `", "`,
wrapped in `[`/`]`; each string is quoted, with `"` and `\` and the
short escapes `\n \r \t \b \f` escaped, every other character below
U+0020 or at / above U+007F escaped as `\uXXXX` (lowercase hex,
`ensure_ascii=True`), and characters above U+FFFF written as a UTF-16
surrogate pair of `\uXXXX` escapes. -/

/-- Lowercase hexadecimal digit for `n < 16` (as `json.dumps` emits). -/
def hexDig (n : Nat) : Char :=
  if n < 10 then Char.ofNat (48 + n) else Char.ofNat (87 + n)

/-- Four lowercase hex digits of `n < 0x10000`, most significant first. -/
def hex4 (n : Nat) : List Char :=
  [hexDig (n / 4096 % 16), hexDig (n / 256 % 16), hexDig (n / 16 % 16), hexDig (n % 16)]

/-- A `\uXXXX` escape. -/
def uEsc (n : Nat) : List Char :=
  '\\' :: 'u' :: hex4 n

/-- The characters `json.dumps` emits for one character of a string. -/
def escChar (c : Char) : List Char :=
  if c = '"' then ['\\', '"']
  else if c = '\\' then ['\\', '\\']
  else if c = '\n' then ['\\', 'n']
  else if c = '\r' then ['\\', 'r']
  else if c = '\t' then ['\\', 't']
  else if c.toNat = 8 then ['\\', 'b']
  else if c.toNat = 12 then ['\\', 'f']
  else if c.toNat < 32 ∨ (127 ≤ c.toNat ∧ c.toNat ≤ 0xFFFF) then uEsc c.toNat
  else if 0x10000 ≤ c.toNat then
    uEsc (0xD800 + (c.toNat - 0x10000) / 1024) ++ uEsc (0xDC00 + (c.toNat - 0x10000) % 1024)
  else [c]

/-- Escape every character of a string body. -/
def escChars : List Char → List Char
  | [] => []
  | c :: cs => escChar c ++ escChars cs

/-- One JSON string literal: `"` body `"`. -/
def quoteChars (s : String) : List Char :=
  '"' :: (escChars s.data ++ ['"'])

/-- Items after the first, each preceded by the default separator `", "`. -/
def itemsTail : List String → List Char
  | [] => [']']
  | s :: rest => ',' :: ' ' :: (quoteChars s ++ itemsTail rest)

/-- All characters of `json.dumps l` for a list of strings `l`. -/
def jsonChars : List String → List Char
  | [] => ['[', ']']
  | s :: rest => '[' :: (quoteChars s ++ itemsTail rest)

/-- `json.dumps` on a list of strings (default arguments, `ensure_ascii=True`). -/
def pyJsonDumps (l : List String) : String :=
  String.mk (jsonChars l)

/-! ## A parser for JSON arrays of strings

Recursive-descent parser accepting exactly the grammar
`'[' (string (', ' string)*)? ']'` with JSON string syntax, used to make
"the body parses as a JSON array of strings" a checkable statement. -/

/-- Value of one hexadecimal digit character. -/
def hexVal (c : Char) : Option Nat :=
  if '0' ≤ c ∧ c ≤ '9' then some (c.toNat - 48)
  else if 'a' ≤ c ∧ c ≤ 'f' then some (c.toNat - 87)
  else if 'A' ≤ c ∧ c ≤ 'F' then some (c.toNat - 55)
  else none

/-- Value of a four-hex-digit group. -/
def hex4Val (a b c d : Char) : Option Nat :=
  match hexVal a, hexVal b, hexVal c, hexVal d with
  | some x, some y, some z, some w => some (4096 * x + 256 * y + 16 * z + w)
  | _, _, _, _ => none

/-- One-character short escapes of JSON (after a backslash). -/
def escCode (e : Char) : Option Char :=
  if e = '"' then some '"'
  else if e = '\\' then some '\\'
  else if e = '/' then some '/'
  else if e = 'n' then some '\n'
  else if e = 'r' then some '\r'
  else if e = 't' then some '\t'
  else if e = 'b' then some (Char.ofNat 8)
  else if e = 'f' then some (Char.ofNat 12)
  else none

/-- Parse the body of a JSON string literal up to and including the closing
quote; returns the decoded characters and the remaining input.  A high
surrogate escape must be followed by a low surrogate escape and decodes to
the corresponding supplementary-plane character. -/
def parseStrChars : List Char → Option (List Char × List Char)
  | [] => none
  | '"' :: rest => some ([], rest)
  | '\\' :: 'u' :: a :: b :: c :: d :: rest =>
    match hex4Val a b c d with
    | none => none
    | some n =>
      if 0xD800 ≤ n ∧ n ≤ 0xDBFF then
        match rest with
        | '\\' :: 'u' :: e :: f :: g :: h :: rest2 =>
          match hex4Val e f g h with
          | none => none
          | some m =>
            if 0xDC00 ≤ m ∧ m ≤ 0xDFFF then
              match parseStrChars rest2 with
              | some (s, r) =>
                some (Char.ofNat (0x10000 + 1024 * (n - 0xD800) + (m - 0xDC00)) :: s, r)
              | none => none
            else none
        | _ => none
      else if 0xDC00 ≤ n ∧ n ≤ 0xDFFF then none
      else
        match parseStrChars rest with
        | some (s, r) => some (Char.ofNat n :: s, r)
        | none => none
  | '\\' :: e :: rest =>
    match escCode e with
    | none => none
    | some c =>
      match parseStrChars rest with
      | some (s, r) => some (c :: s, r)
      | none => none
  | c :: rest =>
    if c.toNat < 32 then none
    else
      match parseStrChars rest with
      | some (s, r) => some (c :: s, r)
      | none => none

/-- Parse the items after a first string: either `]` closing the array or
`, ` followed by another string.  `fuel` bounds the number of items; the
top-level caller passes the length of the remaining input, which always
suffices because each item consumes at least one character. -/
def parseTail : Nat → List Char → Option (List String × List Char)
  | 0, _ => none
  | _ + 1, ']' :: r => some ([], r)
  | fuel + 1, ',' :: ' ' :: '"' :: cs =>
    match parseStrChars cs with
    | none => none
    | some (sc, rest) =>
      match parseTail fuel rest with
      | none => none
      | some (l, rem) => some (String.mk sc :: l, rem)
  | _ + 1, _ => none

/-- Parse a complete JSON array of strings; the whole input must be consumed. -/
def parseJsonStrArray (s : String) : Option (List String) :=
  match s.data with
  | ['[', ']'] => some []
  | '[' :: '"' :: cs =>
    match parseStrChars cs with
    | none => none
    | some (sc, rest) =>
      match parseTail rest.length rest with
      | none => none
      | some (l, rem) => if rem = [] then some (String.mk sc :: l) else none
  | _ => none

/-! ### Round-trip: the parser recovers exactly what `json.dumps` wrote -/

theorem char_valid_nat (c : Char) :
    c.toNat < 0xD800 ∨ (0xDFFF < c.toNat ∧ c.toNat < 0x110000) := by
  rcases c.valid with h | ⟨h1, h2⟩
  · exact Or.inl h
  · exact Or.inr ⟨h1, h2⟩

theorem hexVal_hexDig (d : Nat) (h : d < 16) : hexVal (hexDig d) = some d := by
  interval_cases d <;> decide

theorem hex4Val_hex4 (n : Nat) (h : n < 65536) :
    hex4Val (hexDig (n / 4096 % 16)) (hexDig (n / 256 % 16))
      (hexDig (n / 16 % 16)) (hexDig (n % 16)) = some n := by
  have e1 := hexVal_hexDig (n / 4096 % 16) (Nat.mod_lt _ (by norm_num))
  have e2 := hexVal_hexDig (n / 256 % 16) (Nat.mod_lt _ (by norm_num))
  have e3 := hexVal_hexDig (n / 16 % 16) (Nat.mod_lt _ (by norm_num))
  have e4 := hexVal_hexDig (n % 16) (Nat.mod_lt _ (by norm_num))
  simp only [hex4Val, e1, e2, e3, e4]
  congr 1
  omega

theorem parseStrChars_escChar (c : Char) {r s t : List Char}
    (hp : parseStrChars r = some (s, t)) :
    parseStrChars (escChar c ++ r) = some (c :: s, t) := by
  have hv := char_valid_nat c
  unfold escChar
  split_ifs with h1 h2 h3 h4 h5 h6 h7 h8 h9
  · subst h1; simp [parseStrChars, escCode, hp]
  · subst h2; simp [parseStrChars, escCode, hp]
  · subst h3; simp [parseStrChars, escCode, hp]
  · subst h4; simp [parseStrChars, escCode, hp]
  · subst h5; simp [parseStrChars, escCode, hp]
  · have hc : Char.ofNat 8 = c := by rw [← h6, Char.ofNat_toNat]
    rw [← hc]
    simp [parseStrChars, escCode, hp]
  · have hc : Char.ofNat 12 = c := by rw [← h7, Char.ofNat_toNat]
    rw [← hc]
    simp [parseStrChars, escCode, hp]
  · -- BMP `\uXXXX` escape
    have hlt : c.toNat < 65536 := by omega
    simp only [uEsc, hex4, List.cons_append, List.nil_append]
    rw [parseStrChars]
    rw [hex4Val_hex4 _ hlt]
    have hns : ¬(55296 ≤ c.toNat ∧ c.toNat ≤ 56319) := by omega
    have hns2 : ¬(56320 ≤ c.toNat ∧ c.toNat ≤ 57343) := by omega
    simp [hns, hns2, hp, Char.ofNat_toNat]
  · -- supplementary plane: surrogate pair
    have hhi : 55296 + (c.toNat - 65536) / 1024 < 65536 := by omega
    have hlo : 56320 + (c.toNat - 65536) % 1024 < 65536 := by omega
    have e1 := hex4Val_hex4 _ hhi
    have e2 := hex4Val_hex4 _ hlo
    have hr1a : 55296 ≤ 55296 + (c.toNat - 65536) / 1024 := by omega
    have hr1b : 55296 + (c.toNat - 65536) / 1024 ≤ 56319 := by omega
    have hr2a : 56320 ≤ 56320 + (c.toNat - 65536) % 1024 := by omega
    have hr2b : 56320 + (c.toNat - 65536) % 1024 ≤ 57343 := by omega
    have harg : 65536 + 1024 * (55296 + (c.toNat - 65536) / 1024 - 55296) +
        (56320 + (c.toNat - 65536) % 1024 - 56320) = c.toNat := by omega
    simp only [uEsc, hex4, List.cons_append, List.nil_append, List.append_assoc]
    simp only [parseStrChars, e1, e2, hr1a, hr1b, hr2a, hr2b, and_self, if_true,
      hp, harg, Char.ofNat_toNat]
  · -- printable ASCII, emitted as itself
    have hge : ¬c.toNat < 32 := by omega
    simp [parseStrChars, h1, h2, hge, hp]

theorem parseStrChars_escChars (cs : List Char) (t : List Char) :
    parseStrChars (escChars cs ++ '"' :: t) = some (cs, t) := by
  induction cs with
  | nil => simp [escChars, parseStrChars]
  | cons c cs ih =>
    have h := parseStrChars_escChar c ih
    simpa [escChars, List.append_assoc] using h

theorem stringMk_data (s : String) : String.mk s.data = s := rfl

theorem length_lt_itemsTail (l : List String) : l.length < (itemsTail l).length := by
  induction l with
  | nil => simp [itemsTail]
  | cons s rest ih =>
    simp only [itemsTail, quoteChars, List.length_cons, List.length_append]
    omega

theorem parseTail_itemsTail (l : List String) :
    ∀ fuel, l.length < fuel → parseTail fuel (itemsTail l) = some (l, []) := by
  induction l with
  | nil =>
    intro fuel hf
    match fuel, hf with
    | f + 1, _ => simp [itemsTail, parseTail]
  | cons s rest ih =>
    intro fuel hf
    match fuel, hf with
    | f + 1, hf =>
      have hs : parseStrChars (escChars s.data ++ '"' :: itemsTail rest) =
          some (s.data, itemsTail rest) := parseStrChars_escChars _ _
      have ht : parseTail f (itemsTail rest) = some (rest, []) := by
        apply ih
        simp only [List.length_cons] at hf
        omega
      simp [itemsTail, quoteChars, parseTail, List.append_assoc, hs, ht, stringMk_data]

/-- Round trip: parsing the serializer output recovers the list of strings.
This is the sense in which a discovery response body "parses as a JSON
array of strings". -/
theorem parseJsonStrArray_pyJsonDumps (l : List String) :
    parseJsonStrArray (pyJsonDumps l) = some l := by
  cases l with
  | nil => rfl
  | cons s rest =>
    have hs : parseStrChars (escChars s.data ++ '"' :: itemsTail rest) =
        some (s.data, itemsTail rest) := parseStrChars_escChars _ _
    have ht : parseTail (itemsTail rest).length (itemsTail rest) = some (rest, []) :=
      parseTail_itemsTail rest _ (length_lt_itemsTail rest)
    simp [parseJsonStrArray, pyJsonDumps, jsonChars, quoteChars, List.append_assoc,
      hs, ht, stringMk_data]

/-! ## Filesystem model

A directory tree: the working directory is a list of entries, each entry a
file (with contents, modelled as the decoded string) or a directory with
children.  Real filesystems have at most one entry per name in a
directory; the model does not need that assumption anywhere. -/

inductive Entry where
  | file (name : String) (content : String)
  | dir (name : String) (children : List Entry)

def Entry.name : Entry → String
  | .file n _ => n
  | .dir n _ => n

/-- First entry with the given name, as `Path(nm).exists()` / scandir find it. -/
def rootLookup (root : List Entry) (nm : String) : Option Entry :=
  root.find? (fun e => e.name == nm)

/-! ### `Path('endpoints').glob('**/openapi.json')`

`**` matches this directory and, recursively, every subdirectory (pathlib
does not skip dot-directories and the model has no symlinks); the final
component `openapi.json` then matches any child entry of that name,
whatever its kind (pathlib's glob yields "all matching files (of any
kind)", directories included).  Matches inside a directory are yielded
when the walk visits that directory, before the walk descends into its
subdirectories in listing order.  Scan errors (`OSError`) are suppressed
by glob (CPython ≥ 3.13), so globbing something that is not a directory
yields nothing. -/

mutual
/-- Matches produced when the walk visits a directory with children `cs`,
reached via the path segments `pre`: the matching children of `cs` first,
then the matches beneath each subdirectory of `cs` in order. -/
def globDirVisit (pre : List String) (cs : List Entry) : List (List String) :=
  (cs.filterMap fun e =>
    if e.name = "openapi.json" then some (pre ++ ["openapi.json"]) else none)
  ++ globSubdirs pre cs
termination_by sizeOf cs * 2 + 1
decreasing_by simp_wf

/-- Matches beneath the subdirectories of `cs`. -/
def globSubdirs (pre : List String) : List Entry → List (List String)
  | [] => []
  | .file _ _ :: es => globSubdirs pre es
  | .dir n cs :: es => globDirVisit (pre ++ [n]) cs ++ globSubdirs pre es
termination_by cs => sizeOf cs * 2
decreasing_by all_goals (simp_wf <;> omega)
end

/-- The segment lists of `Path('endpoints').glob('**/openapi.json')`:
empty when no entry named `endpoints` exists (`exists()` is false) and
when the entry is not a directory (the scan of a non-directory raises
`OSError`, which glob suppresses). -/
def endpointsGlobPaths (root : List Entry) : List (List String) :=
  match rootLookup root "endpoints" with
  | some (.dir n cs) => globDirVisit [n] cs
  | _ => []

/-- `str(p)` on a `Path`: the segments joined by `/` (POSIX separator). -/
def joinSegs : List String → String
  | [] => ""
  | [s] => s
  | s :: rest => s ++ "/" ++ joinSegs rest

/-- The `endpoints` list built by the discovery loop: `str(p)` joins the
path segments with `/`. -/
def endpointsListing (root : List Entry) : List String :=
  (endpointsGlobPaths root).map (fun p => joinSegs p)

/-! ### Specification-side description of the walk -/

/-- `FindsEntry cs segs e`: starting from the children list `cs`, the
directory segments of `segs` (all but the last) lead to the entry `e`,
whose name is the last element of `segs`.  This is the spec's "recursive
walk collecting paths including intermediate directory segments". -/
inductive FindsEntry : List Entry → List String → Entry → Prop where
  | here {cs : List Entry} {e : Entry} {nm : String}
      (hmem : e ∈ cs) (hn : e.name = nm) : FindsEntry cs [nm] e
  | deeper {cs cs' : List Entry} {d : String} {segs : List String} {e : Entry}
      (hmem : Entry.dir d cs' ∈ cs) (h : FindsEntry cs' segs e) :
      FindsEntry cs (d :: segs) e


theorem getLast?_cons_of_getLast? {α : Type} {l : List α} {x : α} (d : α)
    (h : l.getLast? = some x) : (d :: l).getLast? = some x := by
  cases l with
  | nil => simp at h
  | cons b t => rw [List.getLast?_cons_cons]; exact h

theorem FindsEntry.last_eq_name {cs : List Entry} {segs : List String} {e : Entry}
    (h : FindsEntry cs segs e) : segs.getLast? = some e.name := by
  induction h with
  | here hmem hn => simp [hn]
  | deeper hmem h ih => exact getLast?_cons_of_getLast? _ ih

theorem mem_glob_aux : ∀ (n : Nat) (cs : List Entry), sizeOf cs < n →
    ∀ (pre p : List String),
      (p ∈ globDirVisit pre cs ↔
        ∃ t e, p = pre ++ t ∧ FindsEntry cs t e ∧ e.name = "openapi.json")
      ∧ (p ∈ globSubdirs pre cs ↔
        ∃ d cs' t e, Entry.dir d cs' ∈ cs ∧ p = pre ++ d :: t ∧
          FindsEntry cs' t e ∧ e.name = "openapi.json") := by
  intro n
  induction n with
  | zero => intro cs h; exact absurd h (Nat.not_lt_zero _)
  | succ n ih =>
  intro cs hle pre p
  have hB : p ∈ globSubdirs pre cs ↔
      ∃ d cs' t e, Entry.dir d cs' ∈ cs ∧ p = pre ++ d :: t ∧
        FindsEntry cs' t e ∧ e.name = "openapi.json" := by
    cases cs with
    | nil => simp [globSubdirs]
    | cons hd es =>
      cases hd with
      | file nm ct =>
        have hes : sizeOf es < n := by
          simp only [List.cons.sizeOf_spec, Entry.file.sizeOf_spec] at hle
          omega
        rw [globSubdirs, (ih es hes pre p).2]
        constructor
        · rintro ⟨d, cs', t, e, hmem, hp, hfind, hname⟩
          exact ⟨d, cs', t, e, List.mem_cons_of_mem _ hmem, hp, hfind, hname⟩
        · rintro ⟨d, cs', t, e, hmem, hp, hfind, hname⟩
          rcases List.mem_cons.mp hmem with heq | hmem'
          · exact absurd heq (by simp)
          · exact ⟨d, cs', t, e, hmem', hp, hfind, hname⟩
      | dir nm cs' =>
        have hes : sizeOf es < n := by
          simp only [List.cons.sizeOf_spec, Entry.dir.sizeOf_spec] at hle
          omega
        have hcs' : sizeOf cs' < n := by
          simp only [List.cons.sizeOf_spec, Entry.dir.sizeOf_spec] at hle
          omega
        rw [globSubdirs, List.mem_append, (ih cs' hcs' (pre ++ [nm]) p).1,
          (ih es hes pre p).2]
        constructor
        · rintro (⟨t, e, hp, hfind, hname⟩ | ⟨d, dcs, t, e, hmem, hp, hfind, hname⟩)
          · exact ⟨nm, cs', t, e, List.mem_cons_self _ _, by simpa using hp, hfind, hname⟩
          · exact ⟨d, dcs, t, e, List.mem_cons_of_mem _ hmem, hp, hfind, hname⟩
        · rintro ⟨d, dcs, t, e, hmem, hp, hfind, hname⟩
          rcases List.mem_cons.mp hmem with heq | hmem'
          · injection heq with h1 h2
            subst h1
            subst h2
            exact Or.inl ⟨t, e, by simpa using hp, hfind, hname⟩
          · exact Or.inr ⟨d, dcs, t, e, hmem', hp, hfind, hname⟩
  constructor
  · rw [globDirVisit, List.mem_append, List.mem_filterMap, hB]
    constructor
    · rintro (⟨e, hmem, hcond⟩ | ⟨d, cs', t, e, hmem, hp, hfind, hname⟩)
      · by_cases hname : e.name = "openapi.json"
        · rw [if_pos hname] at hcond
          obtain rfl := Option.some_inj.mp hcond
          exact ⟨["openapi.json"], e, rfl, FindsEntry.here hmem hname, hname⟩
        · rw [if_neg hname] at hcond
          exact absurd hcond (by simp)
      · exact ⟨d :: t, e, hp, FindsEntry.deeper hmem hfind, hname⟩
    · rintro ⟨t, e, hp, hfind, hname⟩
      cases hfind with
      | here hmem hn =>
        left
        refine ⟨e, hmem, ?_⟩
        rw [if_pos hname, hp, ← hn, hname]
      | deeper hmem hstep =>
        right
        exact ⟨_, _, _, e, hmem, hp, hstep, hname⟩
  · exact hB

/-- Code/spec agreement for the discovery walk: a path is produced by
`glob('**/openapi.json')` on the children of the `endpoints` directory
exactly when the walk relation reaches an entry named `openapi.json`
along its directory segments. -/
theorem mem_globDirVisit_iff (cs : List Entry) (pre p : List String) :
    p ∈ globDirVisit pre cs ↔
      ∃ t e, p = pre ++ t ∧ FindsEntry cs t e ∧ e.name = "openapi.json" :=
  (mem_glob_aux (sizeOf cs + 1) cs (Nat.lt_succ_self _) pre p).1

/-- Shape of every discovered path: it starts with the `endpoints` segment,
ends with the `openapi.json` segment, and so has at least two segments. -/
theorem endpointsGlobPaths_shape (root : List Entry) (p : List String)
    (hp : p ∈ endpointsGlobPaths root) :
    p.head? = some "endpoints" ∧ p.getLast? = some "openapi.json" ∧ 2 ≤ p.length := by
  unfold endpointsGlobPaths at hp
  split at hp
  case h_2 => simp at hp
  case h_1 x n cs heq =>
    have hn : n = "endpoints" := by
      have hfind := List.find?_some heq
      simpa [Entry.name] using hfind
    obtain ⟨t, e, hpe, hfind, hname⟩ := (mem_globDirVisit_iff cs [n] p).mp hp
    have hlast := hfind.last_eq_name
    have htne : t ≠ [] := by
      intro habs
      rw [habs] at hlast
      simp at hlast
    subst hpe
    refine ⟨by simp [hn], ?_, ?_⟩
    · rw [List.getLast?_append_of_ne_nil _ htne, hlast, hname]
    · have : 1 ≤ t.length := by
        cases t with
        | nil => exact absurd rfl htne
        | cons a t2 => simp
      simp only [List.length_append, List.length_cons, List.length_nil]
      omega

/-! ### The claim's stricter reading: files only

The specification speaks of "files literally named `openapi.json`".
`filesVisit`/`filesSubdirs` collect exactly the paths of *file* entries
with that name, for comparison with what the glob actually matches. -/

mutual
def filesVisit (pre : List String) (cs : List Entry) : List (List String) :=
  (cs.filterMap fun e =>
    match e with
    | .file nm _ => if nm = "openapi.json" then some (pre ++ ["openapi.json"]) else none
    | .dir _ _ => none)
  ++ filesSubdirs pre cs
termination_by sizeOf cs * 2 + 1
decreasing_by simp_wf

def filesSubdirs (pre : List String) : List Entry → List (List String)
  | [] => []
  | .file _ _ :: es => filesSubdirs pre es
  | .dir n cs :: es => filesVisit (pre ++ [n]) cs ++ filesSubdirs pre es
termination_by cs => sizeOf cs * 2
decreasing_by all_goals (simp_wf <;> omega)
end

/-- Paths of files named `openapi.json` under the `endpoints` directory —
what the claim says the listing contains. -/
def specFilePaths (root : List Entry) : List String :=
  (match rootLookup root "endpoints" with
    | some (.dir n cs) => filesVisit [n] cs
    | _ => []).map (fun p => joinSegs p)

/-! ## The request handler -/

/-- Class of an exception escaping the handler, as far as the acceptor's
error handling distinguishes them. -/
inductive ExnClass where
  | osError
  | keyboardInterrupt
  | systemExit
deriving DecidableEq

/-- What one request/response exchange has put on the wire: the status line
(if one was sent), the headers, the body (if written), and the class of an
exception that escaped the handler, if any. -/
structure HttpExchange where
  status : Option Nat
  headers : List (String × String)
  body : Option String
  exn : Option ExnClass
deriving DecidableEq

/-- The three CORS headers added by the overridden `end_headers`. -/
def cors3 : List (String × String) :=
  [("Access-Control-Allow-Origin", "*"),
   ("Access-Control-Allow-Methods", "GET, POST, OPTIONS"),
   ("Access-Control-Allow-Headers", "Content-Type, Authorization")]

/-- `str.startswith(pre)`, computed on the character lists. -/
def strStartsWith (s pre : String) : Bool :=
  pre.data.isPrefixOf s.data

/-- `str.endswith(suf)`, computed on the character lists. -/
def strEndsWith (s suf : String) : Bool :=
  suf.data.isSuffixOf s.data

/-- `FalAIHandler.end_headers` (lines 34–40): before flushing the headers
of any response, append the three CORS headers whenever the request path
starts with `/endpoints`. -/
def endHeaders (path : String) (sent : List (String × String)) : List (String × String) :=
  if strStartsWith path "/endpoints" then sent ++ cors3 else sent

/-- The handler's environment for one request: what `Path('endpoints').exists()`
returns, the outcome of the discovery loop (`.error` when an exception — an
`OSError` from the walk on CPython ≤ 3.12, or a failure writing the body —
escapes it), and the static-file delegate's responses for GET and HEAD. -/
structure World where
  endpointsExists : Bool
  globOutcome : Except Unit (List String)
  staticGET : String → HttpExchange
  staticHEAD : String → HttpExchange

/-- `FalAIHandler.do_GET` (lines 13–32): on the exact path `/endpoints`,
send status 200, the `Content-type` and `Access-Control-Allow-Origin`
headers, and flush via `end_headers` (which appends the three CORS
headers); only then run the discovery loop and write the JSON body — so
if the loop raises, the exception escapes after the 200 status line and
headers are already on the wire.  Any other path is delegated to the
static-file handler, whose headers also pass through the overridden
`end_headers`. -/
def doGET (w : World) (path : String) : HttpExchange :=
  if path = "/endpoints" then
    let hdrs := endHeaders path
      [("Content-type", "application/json"), ("Access-Control-Allow-Origin", "*")]
    match (if w.endpointsExists then w.globOutcome else .ok []) with
    | .ok eps =>
      { status := some 200, headers := hdrs, body := some (pyJsonDumps eps), exn := none }
    | .error _ =>
      { status := some 200, headers := hdrs, body := none, exn := some .osError }
  else
    let r := w.staticGET path
    { r with headers := endHeaders path r.headers }

/-- HTTP request methods, with a catch-all for anything else. -/
inductive Method where
  | GET
  | HEAD
  | POST
  | OPTIONS
  | other (s : String)
deriving DecidableEq

/-- Modelled from the spec: the base handler's method dispatch
(`BaseHTTPRequestHandler.handle_one_request`, Python standard library —
not part of this repository's sources).  The class defines only `do_GET`
(and overrides `end_headers`); `do_HEAD` is the inherited static-file
behavior; a method with no `do_*` handler is answered with a 501 error
response.  Every response's headers pass through the overridden
`end_headers`. -/
def handleRequest (w : World) (m : Method) (path : String) : HttpExchange :=
  match m with
  | .GET => doGET w path
  | .HEAD =>
    let r := w.staticHEAD path
    { r with headers := endHeaders path r.headers }
  | _ =>
    { status := some 501,
      headers := endHeaders path
        [("Content-type", "text/html;charset=utf-8"), ("Connection", "close")],
      body := none, exn := none }

/-- Modelled from the spec: the connection acceptor (`socketserver`) catches
any `Exception` escaping a handler, logs the traceback, and keeps serving;
only `KeyboardInterrupt`/`SystemExit` propagate and stop the process. -/
def requestFatal (o : HttpExchange) : Bool :=
  match o.exn with
  | some .keyboardInterrupt => true
  | some .systemExit => true
  | _ => false

/-! ## Static file serving over the tree -/

/-- Modelled from the spec: content-type inference by file extension (the
delegate's `guess_type`). -/
def inferContentType (nm : String) : String :=
  if strEndsWith nm ".html" then "text/html"
  else if strEndsWith nm ".json" then "application/json"
  else if strEndsWith nm ".js" then "text/javascript"
  else if strEndsWith nm ".css" then "text/css"
  else if strEndsWith nm ".png" then "image/png"
  else "application/octet-stream"

/-- Follow path segments from the working directory to an entry. -/
def lookupPath : List Entry → List String → Option Entry
  | _, [] => none
  | cs, [nm] => rootLookup cs nm
  | cs, d :: segs =>
    match rootLookup cs d with
    | some (.dir _ cs') => lookupPath cs' segs
    | _ => none

/-- Split a character list on a separator character. -/
def splitOnChar (sep : Char) : List Char → List (List Char)
  | [] => [[]]
  | c :: cs =>
    if c = sep then [] :: splitOnChar sep cs
    else
      match splitOnChar sep cs with
      | [] => [[c]]
      | g :: gs => (c :: g) :: gs

/-- The non-empty `/`-separated segments of a request path. -/
def pathSegs (path : String) : List String :=
  ((splitOnChar '/' path.data).map (fun g => String.mk g)).filter (fun s => s ≠ "")

/-- Modelled from the spec: the static-file delegate
(`SimpleHTTPRequestHandler`, Python standard library — not part of this
repository's sources).  Per the spec: resolve the path against the working
directory; on success return the file's contents with an inferred content
type; 404 when the path does not resolve to an existing readable file;
403 when access is refused, e.g. a directory-traversal attempt (`..`
segments) outside the served root, which the delegate must prevent.
Directory listings are outside the spec's description and fall under
"does not resolve to an existing readable file". -/
def specStaticServe (root : List Entry) (path : String) : HttpExchange :=
  let segs := pathSegs path
  if segs.contains ".." then
    { status := some 403, headers := [("Content-type", "text/html;charset=utf-8")],
      body := none, exn := none }
  else
    match lookupPath root segs with
    | some (.file nm content) =>
      { status := some 200, headers := [("Content-type", inferContentType nm)],
        body := some content, exn := none }
    | _ =>
      { status := some 404, headers := [("Content-type", "text/html;charset=utf-8")],
        body := none, exn := none }

/-- The world a filesystem tree determines: `Path('endpoints').exists()` is
true when any entry of that name exists; the discovery loop over the pure
tree completes normally; static requests read the tree. -/
def worldOfFS (root : List Entry) : World :=
  { endpointsExists := (rootLookup root "endpoints").isSome
    globOutcome := .ok (endpointsListing root)
    staticGET := fun p => specStaticServe root p
    staticHEAD := fun p => { specStaticServe root p with body := none } }

/-! ## Sequences of requests -/

structure Request where
  method : Method
  path : String

/-- The handler class defines no mutable attribute and a fresh handler
instance serves each request, so the state shared between successive
requests is trivial. -/
def HandlerSharedState : Type := Unit

/-- One request: produce the response and pass the shared state on. -/
def handleStep (st : HandlerSharedState) (w : World) (r : Request) :
    HttpExchange × HandlerSharedState :=
  (handleRequest w r.method r.path, st)

/-- Serve a sequence of requests, threading the shared state through. -/
def serveSeq (st : HandlerSharedState) (w : World) : List Request → List HttpExchange
  | [] => []
  | r :: rs =>
    let p := handleStep st w r
    p.1 :: serveSeq p.2 w rs

/-! ## The `__main__` block (lines 42–54) -/

def PORT : Nat := 8000

/-- The three lines printed before serving. -/
def banner : List String :=
  ["FalAI Development Server",
   "Serving at http://localhost:" ++ toString PORT,
   "Press Ctrl+C to stop"]

/-- Observable outcome of running the program. -/
structure MainRun where
  host : String
  port : Nat
  stdoutLines : List String
  exitCode : Nat
  unhandledExn : Bool
deriving DecidableEq

/-- The `__main__` block: bind `("", 8000)` — every interface — print the
banner and serve forever.  A `KeyboardInterrupt` during `serve_forever`
is caught, `"\nServer stopped"` is printed, `shutdown()` returns at once
(`serve_forever` has already set its finished flag on the way out) and
the `with` block closes the socket, so the process falls off the end of
the script and exits with status 0.  With no interrupt the loop never
returns (`none`). -/
def serverMain (interruptArrives : Bool) : Option MainRun :=
  if interruptArrives then
    some { host := "", port := PORT,
           stdoutLines := banner ++ ["\nServer stopped"],
           exitCode := 0, unhandledExn := false }
  else none

/-! ## Bridging lemmas -/

theorem endpointsListing_of_not_found (root : List Entry)
    (h : rootLookup root "endpoints" = none) : endpointsListing root = [] := by
  simp [endpointsListing, endpointsGlobPaths, h]

/-- What the discovery branch always produces when the loop completes:
status 200, the two branch headers followed by the three CORS headers,
and the serialized listing as body. -/
theorem handle_discovery_eq (root : List Entry) :
    handleRequest (worldOfFS root) Method.GET "/endpoints" =
      { status := some 200,
        headers := [("Content-type", "application/json"),
          ("Access-Control-Allow-Origin", "*")] ++ cors3,
        body := some (pyJsonDumps (endpointsListing root)),
        exn := none } := by
  have hsw : strStartsWith "/endpoints" "/endpoints" = true := by decide
  cases hr : rootLookup root "endpoints" with
  | none =>
    simp [handleRequest, doGET, worldOfFS, endHeaders, hsw, hr,
      endpointsListing_of_not_found root hr]
  | some e =>
    simp [handleRequest, doGET, worldOfFS, endHeaders, hsw, hr]

theorem mem_endHeaders_of_mem_cors (p : String) (hs : List (String × String))
    (hp : strStartsWith p "/endpoints" = true) {h : String × String}
    (hh : h ∈ cors3) : h ∈ endHeaders p hs := by
  simp only [endHeaders, hp, if_true, List.mem_append]
  exact Or.inr hh

/-! ## Claim theorems -/

/-- C1: for every filesystem state, a GET request whose path is exactly
`/endpoints` is answered with status 200, a `Content-type:
application/json` header, and a body that parses as a JSON array of
strings (namely the discovered listing). -/
theorem C1_discovery_json_response (root : List Entry) :
    (handleRequest (worldOfFS root) Method.GET "/endpoints").status = some 200 ∧
    ("Content-type", "application/json") ∈
      (handleRequest (worldOfFS root) Method.GET "/endpoints").headers ∧
    ∃ body, (handleRequest (worldOfFS root) Method.GET "/endpoints").body = some body ∧
      parseJsonStrArray body = some (endpointsListing root) := by
  rw [handle_discovery_eq]
  exact ⟨rfl, by simp, pyJsonDumps (endpointsListing root), rfl,
    parseJsonStrArray_pyJsonDumps _⟩

/-- C3: every response to a request whose path begins with `/endpoints`
carries all three CORS headers, whatever the method, the filesystem/static
outcome, and the status code. -/
theorem C3_cors_on_endpoints_paths (w : World) (m : Method) (p : String)
    (hp : strStartsWith p "/endpoints" = true) :
    ∀ h ∈ cors3, h ∈ (handleRequest w m p).headers := by
  intro h hh
  cases m with
  | GET =>
    rw [handleRequest, doGET]
    by_cases hpe : p = "/endpoints"
    · rw [if_pos hpe]
      cases hg : (if w.endpointsExists then w.globOutcome else Except.ok []) with
      | ok eps => subst hpe; exact mem_endHeaders_of_mem_cors _ _ hp hh
      | error e => subst hpe; exact mem_endHeaders_of_mem_cors _ _ hp hh
    · rw [if_neg hpe]
      exact mem_endHeaders_of_mem_cors _ _ hp hh
  | HEAD => exact mem_endHeaders_of_mem_cors _ _ hp hh
  | POST => exact mem_endHeaders_of_mem_cors _ _ hp hh
  | OPTIONS => exact mem_endHeaders_of_mem_cors _ _ hp hh
  | other s => exact mem_endHeaders_of_mem_cors _ _ hp hh

/-- Witness for C3 at a concrete input: `/endpoints/extra` (a path that
falls through to static serving and 404s) still carries a CORS header. -/
theorem C3_cors_on_endpoints_paths_witness :
    ("Access-Control-Allow-Origin", "*") ∈
      (handleRequest (worldOfFS []) Method.GET "/endpoints/extra").headers :=
  C3_cors_on_endpoints_paths (worldOfFS []) Method.GET "/endpoints/extra"
    (by decide) _ (by simp [cors3])

/-- C9: the 200 discovery response contains the header
`Access-Control-Allow-Origin: *` exactly twice — once sent explicitly in
the discovery branch and once appended by the overridden `end_headers`. -/
theorem C9_acao_header_twice (w : World) :
    (handleRequest w Method.GET "/endpoints").headers.count
      ("Access-Control-Allow-Origin", "*") = 2 := by
  have hsw : strStartsWith "/endpoints" "/endpoints" = true := by decide
  rw [handleRequest, doGET, if_pos rfl]
  cases hg : (if w.endpointsExists then w.globOutcome else Except.ok []) with
  | ok eps => simp [endHeaders, hsw, cors3]
  | error e => simp [endHeaders, hsw, cors3]

/-- The spec's example filesystem: `endpoints/a/openapi.json` and
`endpoints/b/c/openapi.json` present, plus a static `index.html`. -/
def fsEx : List Entry :=
  [Entry.dir "endpoints"
    [Entry.dir "a" [Entry.file "openapi.json" "{}"],
     Entry.dir "b" [Entry.dir "c" [Entry.file "openapi.json" "{}"]]],
   Entry.file "index.html" "<html></html>"]

/-- A filesystem containing a *directory* named `openapi.json` under
`endpoints`, and no file of that name at all. -/
def fsCtr : List Entry := [Entry.dir "endpoints" [Entry.dir "openapi.json" []]]

/-- C2 counterexample: on `fsCtr` the discovery body lists the directory
`endpoints/openapi.json` (pathlib's glob matches entries of any kind), yet
no *file* named `openapi.json` exists — so the body is not the collection
of paths of files of that name, which the claim asserts it equals. -/
theorem C2_counterexample_dir_matched :
    (handleRequest (worldOfFS fsCtr) Method.GET "/endpoints").body ≠
      some (pyJsonDumps (specFilePaths fsCtr)) ∧
    (handleRequest (worldOfFS fsCtr) Method.GET "/endpoints").body =
      some (pyJsonDumps ["endpoints/openapi.json"]) ∧
    specFilePaths fsCtr = [] := by
  have h1 : endpointsListing fsCtr = ["endpoints/openapi.json"] := by
    simp [endpointsListing, endpointsGlobPaths, rootLookup, fsCtr, globDirVisit,
      globSubdirs, Entry.name, joinSegs]
  have h2 : specFilePaths fsCtr = [] := by
    simp [specFilePaths, rootLookup, fsCtr, filesVisit, filesSubdirs, Entry.name]
  rw [handle_discovery_eq, h1, h2]
  refine ⟨?_, rfl, rfl⟩
  intro habs
  have : pyJsonDumps ["endpoints/openapi.json"] = pyJsonDumps [] :=
    Option.some_inj.mp habs
  exact absurd this (by decide)

/-- C2 (amended): the discovery body is exactly the serialized listing of
the recursive walk's matches — the *entries of any kind* (files or
directories) named `openapi.json` under `endpoints` — each path carrying
its intermediate directory segments, in traversal order, neither sorted
nor deduplicated.  Every listed path starts at `endpoints`, ends in
`openapi.json` and has at least two segments; the walk agrees with the
spec-side reachability relation; and on the spec's example filesystem
both example paths are listed. -/
theorem C2_discovery_listing_amended :
    (∀ root : List Entry,
      (handleRequest (worldOfFS root) Method.GET "/endpoints").body =
        some (pyJsonDumps (endpointsListing root)))
    ∧ (∀ (root : List Entry) (p : List String), p ∈ endpointsGlobPaths root →
        p.head? = some "endpoints" ∧ p.getLast? = some "openapi.json" ∧ 2 ≤ p.length)
    ∧ (∀ (cs : List Entry) (pre p : List String),
        p ∈ globDirVisit pre cs ↔
          ∃ t e, p = pre ++ t ∧ FindsEntry cs t e ∧ e.name = "openapi.json")
    ∧ endpointsListing fsEx = ["endpoints/a/openapi.json", "endpoints/b/c/openapi.json"] := by
  refine ⟨?_, endpointsGlobPaths_shape, mem_globDirVisit_iff, ?_⟩
  · intro root
    rw [handle_discovery_eq]
  · simp [endpointsListing, endpointsGlobPaths, rootLookup, fsEx, globDirVisit,
      globSubdirs, Entry.name, joinSegs]

/-- Witness for the amended C2 at a concrete input: the path
`endpoints/a/openapi.json` is produced by the walk on the example
filesystem, so the shape component applies to it. -/
theorem C2_discovery_listing_amended_witness :
    (["endpoints", "a", "openapi.json"] : List String).getLast? = some "openapi.json" ∧
    2 ≤ (["endpoints", "a", "openapi.json"] : List String).length := by
  have hmem : (["endpoints", "a", "openapi.json"] : List String) ∈ endpointsGlobPaths fsEx := by
    simp [endpointsGlobPaths, rootLookup, fsEx, globDirVisit, globSubdirs, Entry.name]
  have h := C2_discovery_listing_amended.2.1 fsEx ["endpoints", "a", "openapi.json"] hmem
  exact ⟨h.2.1, h.2.2⟩

/-- C5: when the path `endpoints` does not resolve to a directory (no
entry of that name at all, or a non-directory entry whose scan yields
nothing), discovery succeeds with status 200 and the empty JSON array
`[]`. -/
theorem C5_no_endpoints_dir_empty_array (root : List Entry)
    (h : ∀ (n : String) (cs : List Entry),
      rootLookup root "endpoints" ≠ some (Entry.dir n cs)) :
    (handleRequest (worldOfFS root) Method.GET "/endpoints").status = some 200 ∧
    (handleRequest (worldOfFS root) Method.GET "/endpoints").body = some "[]" := by
  have hl : endpointsListing root = [] := by
    unfold endpointsListing endpointsGlobPaths
    cases hr : rootLookup root "endpoints" with
    | none => simp
    | some e =>
      cases e with
      | file nm ct => simp
      | dir n cs => exact absurd hr (h n cs)
  rw [handle_discovery_eq, hl]
  exact ⟨rfl, rfl⟩

/-- Witness for C5 at the empty working directory. -/
theorem C5_no_endpoints_dir_empty_array_witness :
    (handleRequest (worldOfFS []) Method.GET "/endpoints").body = some "[]" :=
  (C5_no_endpoints_dir_empty_array []
    (by intro n cs hc; simp [rootLookup] at hc)).2

/-- A world in which the discovery loop fails (e.g. an `OSError` escaping
the walk on CPython ≤ 3.12, or a failure writing the body). -/
def wFault : World :=
  { endpointsExists := true
    globOutcome := .error ()
    staticGET := fun _ => { status := some 404, headers := [], body := none, exn := none }
    staticHEAD := fun _ => { status := some 404, headers := [], body := none, exn := none } }

/-- C4 counterexample: when the discovery loop fails, the client has
already received the 200 status line and headers — the failure is *not*
reported as a 5xx status (the status on the wire is 200, the body is
missing); the escaping exception is nevertheless non-fatal to the
process. -/
theorem C4_counterexample_no_5xx :
    (handleRequest wFault Method.GET "/endpoints").status = some 200 ∧
    (handleRequest wFault Method.GET "/endpoints").body = none ∧
    (handleRequest wFault Method.GET "/endpoints").exn = some ExnClass.osError ∧
    requestFatal (handleRequest wFault Method.GET "/endpoints") = false := by
  have hsw : strStartsWith "/endpoints" "/endpoints" = true := by decide
  rw [handleRequest, doGET, if_pos rfl]
  simp [wFault, endHeaders, hsw, requestFatal]

/-- C4 (amended): an error escaping the handler never terminates the
serving process — the acceptor catches it; but a discovery failure is not
converted into a 5xx response: the 200 status line and headers were sent
before the walk ran, so the client observes status 200 with a truncated
(absent) body. -/
theorem C4_amended_errors_nonfatal (w : World)
    (h1 : w.endpointsExists = true) (h2 : w.globOutcome = .error ()) :
    (handleRequest w Method.GET "/endpoints").status = some 200 ∧
    (handleRequest w Method.GET "/endpoints").body = none ∧
    (handleRequest w Method.GET "/endpoints").exn = some ExnClass.osError ∧
    requestFatal (handleRequest w Method.GET "/endpoints") = false := by
  have hsw : strStartsWith "/endpoints" "/endpoints" = true := by decide
  rw [handleRequest, doGET, if_pos rfl]
  simp [h1, h2, endHeaders, hsw, requestFatal]

/-- Witness for the amended C4 at the concrete faulting world. -/
theorem C4_amended_errors_nonfatal_witness :
    (handleRequest wFault Method.GET "/endpoints").body = none ∧
    requestFatal (handleRequest wFault Method.GET "/endpoints") = false := by
  have h := C4_amended_errors_nonfatal wFault rfl rfl
  exact ⟨h.2.1, h.2.2.2⟩

/-- C6: a GET whose path is not exactly `/endpoints` is delegated to the
static-file handler (its headers still passing through the overridden
`end_headers`); the delegate serves the file bytes with an inferred
content type when the path resolves to a file, answers 403 on a
traversal attempt, and 404 when the path does not resolve to an existing
readable file. -/
theorem C6_static_delegation (root : List Entry) (p : String)
    (hne : p ≠ "/endpoints") :
    (handleRequest (worldOfFS root) Method.GET p =
      { specStaticServe root p with
          headers := endHeaders p (specStaticServe root p).headers })
    ∧ ((pathSegs p).contains ".." = false →
        ∀ nm content, lookupPath root (pathSegs p) = some (Entry.file nm content) →
          (specStaticServe root p).status = some 200 ∧
          (specStaticServe root p).body = some content ∧
          (specStaticServe root p).headers = [("Content-type", inferContentType nm)])
    ∧ ((pathSegs p).contains ".." = false →
        (∀ nm content, lookupPath root (pathSegs p) ≠ some (Entry.file nm content)) →
          (specStaticServe root p).status = some 404)
    ∧ ((pathSegs p).contains ".." = true →
        (specStaticServe root p).status = some 403) := by
  refine ⟨?_, ?_, ?_, ?_⟩
  · rw [handleRequest, doGET, if_neg hne]
    rfl
  · intro hdots nm content hlook
    have hnm : ".." ∉ pathSegs p := by simpa using hdots
    simp [specStaticServe, hnm, hlook]
  · intro hdots hnofile
    have hnm : ".." ∉ pathSegs p := by simpa using hdots
    cases hl : lookupPath root (pathSegs p) with
    | none => simp [specStaticServe, hnm, hl]
    | some e =>
      cases e with
      | file nm content => exact absurd hl (hnofile nm content)
      | dir n cs => simp [specStaticServe, hnm, hl]
  · intro hdots
    have hm : ".." ∈ pathSegs p := by simpa using hdots
    simp [specStaticServe, hm]

/-- Witness for C6: `/index.html` on the example filesystem is served with
status 200 and the file's bytes. -/
theorem C6_static_delegation_witness :
    (specStaticServe fsEx "/index.html").status = some 200 ∧
    (specStaticServe fsEx "/index.html").body = some "<html></html>" := by
  have h := (C6_static_delegation fsEx "/index.html" (by decide)).2.1
    (by decide) "index.html" "<html></html>" (by rfl)
  exact ⟨h.1, h.2.1⟩

/-- C7: running the program with no flags listens on fixed TCP port 8000
bound to all interfaces (host `""`), prints the banner; on an interrupt it
prints the stop message and exits with status 0, with no unhandled
exception. -/
theorem C7_main_lifecycle :
    serverMain true =
      some { host := "", port := 8000,
             stdoutLines := ["FalAI Development Server",
               "Serving at http://localhost:8000",
               "Press Ctrl+C to stop",
               "\nServer stopped"],
             exitCode := 0, unhandledExn := false } := by
  decide

/-- C8: the handler is stateless across requests: serving any sequence of
requests threads an unchanged (trivial) shared state, and each response
is the pure function of its own request and the fixed world alone — so
two runs on the same request against the same filesystem give the same
response. -/
theorem C8_handler_stateless (st : HandlerSharedState) (w : World) (rs : List Request) :
    serveSeq st w rs = rs.map (fun r => handleRequest w r.method r.path) ∧
    (∀ r : Request, (handleStep st w r).2 = st) := by
  constructor
  · induction rs with
    | nil => rfl
    | cons r rest ih => simp [serveSeq, handleStep, ih]
  · intro r
    rfl

/-- C10: the JSON discovery answer is produced only for the GET method:
HEAD on `/endpoints` is the base handler's static behavior, POST and
OPTIONS get the base handler's 501 error response with no body — and all
of them still carry the three CORS headers appended by `end_headers`. -/
theorem C10_discovery_only_for_get (w : World) :
    (handleRequest w Method.HEAD "/endpoints" =
      { w.staticHEAD "/endpoints" with
          headers := (w.staticHEAD "/endpoints").headers ++ cors3 })
    ∧ (handleRequest w Method.POST "/endpoints").status = some 501
    ∧ (handleRequest w Method.OPTIONS "/endpoints").status = some 501
    ∧ (handleRequest w Method.POST "/endpoints").body = none
    ∧ (handleRequest w Method.OPTIONS "/endpoints").body = none
    ∧ (handleRequest w Method.POST "/endpoints").headers =
        [("Content-type", "text/html;charset=utf-8"), ("Connection", "close")] ++ cors3
    ∧ (handleRequest w Method.OPTIONS "/endpoints").headers =
        [("Content-type", "text/html;charset=utf-8"), ("Connection", "close")] ++ cors3 := by
  have hsw : strStartsWith "/endpoints" "/endpoints" = true := by decide
  refine ⟨?_, rfl, rfl, rfl, rfl, ?_, ?_⟩ <;>
    simp [handleRequest, endHeaders, hsw]
